import Mathlib

/-!
Shallow embedding of the pixelmatch comparison engine (Go package
pixelmatch).  Go float64 arithmetic is modelled over ℚ with the source's
decimal constants taken exactly; machine integers (uint8/uint32/int) are
modelled as ℕ/ℤ with the source's shifts and truncating divisions made
explicit.  Definitions follow the final revision of the source (the one
built around imageLineReader); each definition's doc comment names the
source function it embeds.
-/

namespace Pixelmatch

/-- Embeds image.Point: a pair of int coordinates. -/
structure Point where
  x : ℤ
  y : ℤ
deriving DecidableEq

/-- Embeds image.Rectangle: min and max corner points. -/
structure Rectangle where
  min : Point
  max : Point
deriving DecidableEq

/-- Embeds Go image.Rectangle.Empty: true when the rectangle has no points. -/
def Rectangle.empty (r : Rectangle) : Bool :=
  r.max.x ≤ r.min.x || r.max.y ≤ r.min.y

/-- Embeds Go image.Rectangle.Eq: component equality, or both empty. -/
def Rectangle.rEq (r s : Rectangle) : Bool :=
  decide (r = s) || (r.empty && s.empty)

/-- Embeds image.Rectangle.Dx: the width. -/
def Rectangle.dx (r : Rectangle) : ℤ := r.max.x - r.min.x

/-- Embeds image.Rectangle.Dy: the height. -/
def Rectangle.dy (r : Rectangle) : ℤ := r.max.y - r.min.y

/-- Width of a rectangle as a natural number (Go int widths of real images
are nonnegative). -/
def Rectangle.dxNat (r : Rectangle) : ℕ := r.dx.toNat

/-- Embeds the source's struct rgba: one canonical pixel, four uint32
channel values in the 16-bit range 0..65535 (as produced by readLine). -/
structure Rgba where
  R : ℕ
  G : ℕ
  B : ℕ
  A : ℕ
deriving DecidableEq

/-- The all-zero color, used to totalize accesses where Go would panic. -/
def zeroRgba : Rgba := ⟨0, 0, 0, 0⟩

/-- Embeds rgbaFromColor's per-channel scaling: float64(v) * (1.0/256.0). -/
def scaleChan (v : ℕ) : ℚ := (v : ℚ) * (1 / 256)

/-- Embeds func blend(c, a float64): 255 + (c-255)*a. -/
def blend (c a : ℚ) : ℚ := 255 + (c - 255) * a

/-- Embeds func blendRGBA(r, g, b, a float64): divides alpha by 255 and
blends each channel toward white. -/
def blendRGBA (r g b a : ℚ) : ℚ × ℚ × ℚ :=
  (blend r (a / 255), blend g (a / 255), blend b (a / 255))

/-- Embeds func rgbaToY. -/
def rgbaToY (r g b : ℚ) : ℚ :=
  r * 0.29889531 + g * 0.58662247 + b * 0.11448223

/-- Embeds func rgbaToI. -/
def rgbaToI (r g b : ℚ) : ℚ :=
  r * 0.59597799 - g * 0.27417610 - b * 0.32180189

/-- Embeds func rgbaToQ. -/
def rgbaToQ (r g b : ℚ) : ℚ :=
  r * 0.21147017 - g * 0.52261711 + b * 0.31114694

/-- Embeds the channel-preparation stage of colorDelta: scale the four
uint32 channels by 1/256 and alpha-blend the RGB toward white when the
scaled alpha is below 255 (source: `if aa < 255 { ar, ag, ab =
blendRGBA(ar, ag, ab, aa) }`). -/
def effectiveRGB (c : Rgba) : ℚ × ℚ × ℚ :=
  if scaleChan c.A < 255 then
    blendRGBA (scaleChan c.R) (scaleChan c.G) (scaleChan c.B) (scaleChan c.A)
  else
    (scaleChan c.R, scaleChan c.G, scaleChan c.B)

/-- The blended luma of a color, exactly the `ya`/`yb` computed inside
colorDelta. -/
def lumaY (c : Rgba) : ℚ :=
  rgbaToY (effectiveRGB c).1 (effectiveRGB c).2.1 (effectiveRGB c).2.2

/-- Embeds func colorDelta(a, b *rgba, yOnly bool) float64. -/
def colorDelta (a b : Rgba) (yOnly : Bool) : ℚ :=
  if a.A = b.A ∧ a.R = b.R ∧ a.G = b.G ∧ a.B = b.B then 0
  else
    let pa := effectiveRGB a
    let pb := effectiveRGB b
    let ya := rgbaToY pa.1 pa.2.1 pa.2.2
    let yb := rgbaToY pb.1 pb.2.1 pb.2.2
    let y := ya - yb
    if yOnly then y
    else
      let i := rgbaToI pa.1 pa.2.1 pa.2.2 - rgbaToI pb.1 pb.2.1 pb.2.2
      let q := rgbaToQ pa.1 pa.2.1 pa.2.2 - rgbaToQ pb.1 pb.2.1 pb.2.2
      let d := 0.5053 * y * y + 0.299 * i * i + 0.1957 * q * q
      if yb < ya then -d else d

/-- The threshold-to-cutoff conversion from MatchPixel:
maxDelta := 35215 * options.threshold * options.threshold. -/
def maxDeltaOf (t : ℚ) : ℚ := 35215 * t * t

/-- An *image.NRGBA: a flat byte buffer with a row stride and bounds
(Go image.NRGBA fields Pix, Stride, Rect). -/
structure NRGBAImage where
  pix : List ℕ
  stride : ℤ
  rect : Rectangle

/-- An arbitrary value of the Go image.Image interface, exposed only
through Bounds() and At(x,y).RGBA(): bounds plus a canonical pixel
function. -/
structure GenericImage where
  rect : Rectangle
  pixel : ℤ → ℤ → Rgba

/-- The image universe of the model: a concrete *image.NRGBA, or an
opaque image.Image value.  The source's type switches over further
concrete types (RGBA, RGBA64, ...) are analogous to the NRGBA case and
are not needed by the claims. -/
inductive GoImage where
  | nrgba (m : NRGBAImage)
  | generic (g : GenericImage)

/-- Byte access into a Pix buffer.  Go would panic on an out-of-range
index; the model totalizes with 0 (no verified claim reads out of
range). -/
def byteAt (pix : List ℕ) (i : ℤ) : ℕ :=
  if 0 ≤ i then pix.getD i.toNat 0 else 0

/-- Embeds (*image.NRGBA).PixOffset(x, y). -/
def NRGBAImage.pixOffset (m : NRGBAImage) (x y : ℤ) : ℤ :=
  (y - m.rect.min.y) * m.stride + (x - m.rect.min.x) * 4

/-- Embeds the *image.NRGBA case of func readLine for a single pixel:
r<<8|r is 257*r, and uint32 division by 0xff truncates. -/
def NRGBAImage.linePixel (m : NRGBAImage) (x y : ℤ) : Rgba :=
  let o := m.pixOffset x y
  let r := byteAt m.pix o
  let g := byteAt m.pix (o + 1)
  let b := byteAt m.pix (o + 2)
  let a := byteAt m.pix (o + 3)
  if a = 255 then ⟨257 * r, 257 * g, 257 * b, 65535⟩
  else ⟨257 * r * a / 255, 257 * g * a / 255, 257 * b * a / 255, 257 * a⟩

/-- Embeds color.NRGBA.RGBA() from the standard library: the canonical
16-bit color of an NRGBA pixel (r |= r<<8; r *= a; r /= 0xff). -/
def nrgbaRGBA (r g b a : ℕ) : Rgba :=
  ⟨257 * r * a / 255, 257 * g * a / 255, 257 * b * a / 255, 257 * a⟩

/-- Direct per-pixel conversion (*image.NRGBA).At(x,y).RGBA(). -/
def NRGBAImage.colorAt (m : NRGBAImage) (x y : ℤ) : Rgba :=
  let o := m.pixOffset x y
  nrgbaRGBA (byteAt m.pix o) (byteAt m.pix (o + 1)) (byteAt m.pix (o + 2))
    (byteAt m.pix (o + 3))

/-- Bounds() of an image. -/
def GoImage.bounds : GoImage → Rectangle
  | .nrgba m => m.rect
  | .generic g => g.rect

/-- At(x,y).RGBA() of an image: the canonical color the general-purpose
decode path produces. -/
def GoImage.colorAt : GoImage → ℤ → ℤ → Rgba
  | .nrgba m => m.colorAt
  | .generic g => g.pixel

/-- Embeds func readLine(dst []rgba, img image.Image, y int): the
materialized canonical line of row y, one entry per column of the
logical width.  The NRGBA arm is the specialized byte-level decode
(offset lineOffset + i*4 equals PixOffset(Min.X+i, y)); the generic arm
is the default At(...).RGBA() path. -/
def GoImage.readLine : GoImage → ℤ → List Rgba
  | .nrgba m, y =>
    (List.range m.rect.dxNat).map fun i : ℕ => m.linePixel (m.rect.min.x + (i : ℤ)) y
  | .generic g, y =>
    (List.range g.rect.dxNat).map fun i : ℕ => g.pixel (g.rect.min.x + (i : ℤ)) y

/-- One row slice pixA[off : off+len] of a Pix buffer (bytes.Equal is
length-sensitive, as is list equality). -/
def sliceRow (pix : List ℕ) (off len : ℤ) : List ℕ :=
  (pix.drop off.toNat).take len.toNat

/-- Embeds func equals(pixA, pixB []uint8, strideA, strideB int, rect
image.Rectangle) bool of the final revision: a single contiguous compare
when both buffers have exactly w*h bytes, otherwise per-row compares of
the *full stride* slices pixA[y*strideA : y*strideA+strideA]. -/
def equals (pixA pixB : List ℕ) (strideA strideB : ℤ) (rect : Rectangle) : Bool :=
  let w := rect.dx
  let h := rect.dy
  if w * h = pixA.length ∧ w * h = pixB.length then decide (pixA = pixB)
  else
    (List.range h.toNat).all fun y =>
      decide (sliceRow pixA (y * strideA) strideA = sliceRow pixB (y * strideB) strideB)

/-- Embeds func isIdentical(a, b image.Image) bool: the type switch
succeeds only when both images share the same concrete packed type
(here: both *image.NRGBA); any other pairing falls through to false. -/
def isIdentical : GoImage → GoImage → Bool
  | .nrgba x, .nrgba y => equals x.pix y.pix x.stride y.stride x.rect
  | _, _ => false

/-- The mutable state of an imageLineReader: the cursor row y and the
five window slots (nil slices modelled as none). -/
structure LineReaderState where
  y : ℤ
  lines : Fin 5 → Option (List Rgba)

/-- Embeds func newImageLineReader(img image.Image, y int). -/
def newImageLineReader (_img : GoImage) (y : ℤ) : LineReaderState :=
  { y := y, lines := fun _ => none }

/-- The guarded materialization used by Next(): a window slot holds the
decoded line for row yy when yy is inside the image rows and nil
otherwise. -/
def windowLine (img : GoImage) (yy : ℤ) : Option (List Rgba) :=
  if img.bounds.min.y ≤ yy ∧ yy < img.bounds.max.y then some (img.readLine yy)
  else none

/-- Embeds (*imageLineReader).Next(): none models a false return.  On
the first call all five slots are filled; afterwards the window slides
by one row (the recycled slot 4 buffer is fully overwritten by readLine,
so its value is exactly windowLine of row y+2). -/
def readerNext (img : GoImage) (s : LineReaderState) : Option LineReaderState :=
  if s.y = img.bounds.max.y then none
  else
    let lines2 :=
      if (s.lines 2).isNone then
        fun i : Fin 5 => windowLine img (s.y + (i : ℤ) - 2)
      else
        fun i : Fin 5 =>
          if h : (i : ℕ) + 1 < 5 then s.lines ⟨(i : ℕ) + 1, h⟩
          else windowLine img (s.y + 2)
    some { y := s.y + 1, lines := lines2 }

/-- The reader used by MatchPixel after k calls of Next(), starting from
newImageLineReader(img, img.Bounds().Min.Y); none models a false return
from any of the k calls. -/
def nextN (img : GoImage) : ℕ → Option LineReaderState
  | 0 => some (newImageLineReader img img.bounds.min.y)
  | k + 1 => (nextN img k).bind fun s => readerNext img s

/-- Embeds (*imageLineReader).Line(): the center slot. -/
def LineReaderState.Line (s : LineReaderState) : Option (List Rgba) := s.lines 2

/-- Embeds (*imageLineReader).Y(): the current row, r.y - 1. -/
def LineReaderState.Yr (s : LineReaderState) : ℤ := s.y - 1

/-- Embeds (*imageLineReader).At(x, y): indexes slot y-Y()+2 at offset x
(the source indexes by the absolute x it is passed, with no Min.X
correction).  Go panics when the slot or the offset is out of range; the
model totalizes those accesses with zeroRgba. -/
def LineReaderState.At (s : LineReaderState) (x y : ℤ) : Rgba :=
  let idx := y - s.Yr + 2
  if h : 0 ≤ idx ∧ idx < 5 then
    match s.lines ⟨idx.toNat, by omega⟩ with
    | some line => if 0 ≤ x then line.getD x.toNat zeroRgba else zeroRgba
    | none => zeroRgba
  else zeroRgba

/-- What isAntiAliased and hasManySiblings see of a reader argument:
its Bounds() and its At. -/
structure PixelSource where
  rect : Rectangle
  At : ℤ → ℤ → Rgba

/-- The PixelSource view of a reader over its image. -/
def LineReaderState.toSource (img : GoImage) (s : LineReaderState) : PixelSource :=
  ⟨img.bounds, s.At⟩

/-- Embeds func maxInt. -/
def maxInt (a b : ℤ) : ℤ := if a < b then b else a

/-- Embeds func minInt. -/
def minInt (a b : ℤ) : ℤ := if a < b then a else b

/-- The integer interval lo..hi inclusive, in increasing order: the
index sequence of a Go loop `for v := lo; v <= hi; v++`. -/
def intRange (lo hi : ℤ) : List ℤ :=
  (List.range (hi + 1 - lo).toNat).map fun i : ℕ => lo + (i : ℤ)

/-- The neighbor coordinates visited by the two nested loops of
isAntiAliased / hasManySiblings: x outer from x0 to x2, y inner from y0
to y2, skipping the center (x1, y1). -/
def neighborCoords (x0 x2 y0 y2 x1 y1 : ℤ) : List (ℤ × ℤ) :=
  ((intRange x0 x2).flatMap fun x => (intRange y0 y2).map fun y => (x, y)).filter
    fun p => !(decide (p.1 = x1) && decide (p.2 = y1))

/-- The boundary seeding shared by isAntiAliased and hasManySiblings:
zeroes starts at 1 when any neighbor coordinate was clamped. -/
def edgeSeed (x0 x2 y0 y2 x1 y1 : ℤ) : ℕ :=
  if x1 = x0 ∨ x1 = x2 ∨ y1 = y0 ∨ y1 = y2 then 1 else 0

/-- Exact equality of all four canonical channels, the sibling test of
hasManySiblings. -/
def sameRgba (a b : Rgba) : Bool :=
  decide (a.R = b.R) && decide (a.G = b.G) && decide (a.B = b.B) && decide (a.A = b.A)

/-- The counting loop of func hasManySiblings, with its early true
return once the counter passes 2. -/
def siblingLoop (c : Rgba) (src : PixelSource) : List (ℤ × ℤ) → ℕ → Bool
  | [], _ => false
  | p :: rest, zeroes =>
    let b := src.At p.1 p.2
    let zeroes2 := if sameRgba c b then zeroes + 1 else zeroes
    if 2 < zeroes2 then true else siblingLoop c src rest zeroes2

/-- Embeds func hasManySiblings(img *imageLineReader, x1, y1 int) bool. -/
def hasManySiblings (src : PixelSource) (x1 y1 : ℤ) : Bool :=
  let x0 := maxInt (x1 - 1) src.rect.min.x
  let y0 := maxInt (y1 - 1) src.rect.min.y
  let x2 := minInt (x1 + 1) (src.rect.max.x - 1)
  let y2 := minInt (y1 + 1) (src.rect.max.y - 1)
  siblingLoop (src.At x1 y1) src (neighborCoords x0 x2 y0 y2 x1 y1)
    (edgeSeed x0 x2 y0 y2 x1 y1)

/-- The accumulator of isAntiAliased's neighbor loop: the zero-delta
counter, the running extrema and their coordinates. -/
structure AAState where
  zeroes : ℕ
  dmin : ℚ
  dmax : ℚ
  minP : ℤ × ℤ
  maxP : ℤ × ℤ

/-- The neighbor loop of func isAntiAliased; none models the early false
return when the zero counter passes 2. -/
def aaLoop (c : Rgba) (src : PixelSource) : List (ℤ × ℤ) → AAState → Option AAState
  | [], s => some s
  | p :: rest, s =>
    let delta := colorDelta c (src.At p.1 p.2) true
    if delta = 0 then
      if 2 < s.zeroes + 1 then none
      else aaLoop c src rest { s with zeroes := s.zeroes + 1 }
    else if delta < s.dmin then
      aaLoop c src rest { s with dmin := delta, minP := p }
    else if s.dmax < delta then
      aaLoop c src rest { s with dmax := delta, maxP := p }
    else aaLoop c src rest s

/-- Embeds func isAntiAliased(a, b *imageLineReader, x1, y1 int) bool. -/
def isAntiAliased (a b : PixelSource) (x1 y1 : ℤ) : Bool :=
  let x0 := maxInt (x1 - 1) a.rect.min.x
  let y0 := maxInt (y1 - 1) a.rect.min.y
  let x2 := minInt (x1 + 1) (a.rect.max.x - 1)
  let y2 := minInt (y1 + 1) (a.rect.max.y - 1)
  match aaLoop (a.At x1 y1) a (neighborCoords x0 x2 y0 y2 x1 y1)
      ⟨edgeSeed x0 x2 y0 y2 x1 y1, 0, 0, (0, 0), (0, 0)⟩ with
  | none => false
  | some s =>
    if s.dmax = 0 ∨ s.dmin = 0 then false
    else
      (hasManySiblings a s.minP.1 s.minP.2 && hasManySiblings b s.minP.1 s.minP.2)
        || (hasManySiblings a s.maxP.1 s.maxP.2 && hasManySiblings b s.maxP.1 s.maxP.2)

/-- An 8-bit color.RGBA value as held in MatchOptions. -/
structure RGBAColor where
  R : ℕ
  G : ℕ
  B : ℕ
  A : ℕ
deriving DecidableEq

/-- The reachable MatchOptions values: every field the functional
options can set.  writeTo records whether an output slot pointer was
supplied. -/
structure MatchOptions where
  threshold : ℚ
  includeAA : Bool
  alpha : ℚ
  antiAliasedColor : RGBAColor
  diffColor : RGBAColor
  diffColorAlt : Option RGBAColor
  diffMask : Bool
  writeTo : Bool

/-- The defaults set at the top of MatchPixel. -/
def defaultOptions : MatchOptions :=
  { threshold := 0.1
    includeAA := false
    alpha := 0.1
    antiAliasedColor := ⟨255, 255, 0, 0⟩
    diffColor := ⟨255, 0, 0, 0⟩
    diffColorAlt := none
    diffMask := false
    writeTo := false }

/-- Go float64-to-uint8 conversion for the dimmed preview value:
truncation toward zero (the Go spec leaves out-of-range conversions
unspecified; the preview values are in range for alpha in [0,1]). -/
def goUint8 (q : ℚ) : ℕ := if 0 ≤ q then (⌊q⌋).toNat % 256 else 0

/-- Writing d[0], d[1], d[2] of outLine[i*4 : i*4+4]: the alpha byte
d[3] is never touched by the per-pixel writes. -/
def setRGBBytes (line : List ℕ) (i : ℕ) (r g b : ℕ) : List ℕ :=
  ((line.set (4 * i) r).set (4 * i + 1) g).set (4 * i + 2) b

/-- The dimmed grayscale byte of the unchanged-pixel branch:
v := uint8(blend(rgbaToY(r, g, b), aa*a)) with aa = options.alpha/255. -/
def dimmedGray (c : Rgba) (aa : ℚ) : ℕ :=
  goUint8 (blend (rgbaToY (scaleChan c.R) (scaleChan c.G) (scaleChan c.B))
    (aa * scaleChan c.A))

/-- The pixel-counting condition of the main loop, isolated:
math.Abs(delta) > maxDelta and not suppressed as anti-aliasing. -/
def pixelFlagged (includeAA : Bool) (maxDelta : ℚ) (va vb : PixelSource)
    (x y : ℤ) (ca cb : Rgba) : Bool :=
  decide (maxDelta < |colorDelta ca cb false|)
    && !(!includeAA && (isAntiAliased va vb x y || isAntiAliased vb va x y))

/-- The body of the inner loop of MatchPixel for one pixel index i:
threads the diff counter and the shared outLine buffer. -/
def processPixel (mo : MatchOptions) (maxDelta aa : ℚ) (va vb : PixelSource)
    (minX y : ℤ) (i : ℕ) (ca cb : Rgba) (acc : ℕ × List ℕ) : ℕ × List ℕ :=
  let delta := colorDelta ca cb false
  let x := minX + i
  if maxDelta < |delta| then
    if !mo.includeAA && (isAntiAliased va vb x y || isAntiAliased vb va x y) then
      (acc.1,
        if mo.writeTo && !mo.diffMask then
          setRGBBytes acc.2 i mo.antiAliasedColor.R mo.antiAliasedColor.G mo.antiAliasedColor.B
        else acc.2)
    else
      (acc.1 + 1,
        if mo.writeTo then
          match mo.diffColorAlt with
          | some alt =>
            if delta < 0 then setRGBBytes acc.2 i alt.R alt.G alt.B
            else setRGBBytes acc.2 i mo.diffColor.R mo.diffColor.G mo.diffColor.B
          | none => setRGBBytes acc.2 i mo.diffColor.R mo.diffColor.G mo.diffColor.B
        else acc.2)
  else
    (acc.1,
      if mo.writeTo && !mo.diffMask then
        let v := dimmedGray ca aa
        setRGBBytes acc.2 i v v v
      else acc.2)

/-- The inner loop of MatchPixel over one row: for i := range aLine. -/
def processRow (mo : MatchOptions) (maxDelta aa : ℚ) (va vb : PixelSource)
    (minX y : ℤ) (aLine bLine : List Rgba) (outLine : List ℕ) : ℕ × List ℕ :=
  (List.range aLine.length).foldl
    (fun acc i =>
      processPixel mo maxDelta aa va vb minX y i (aLine.getD i zeroRgba)
        (bLine.getD i zeroRgba) acc)
    (0, outLine)

/-- The row loop of MatchPixel: for ; ar.Next() && br.Next(); y++,
copying outLine into the output row after each row.  The fuel equals the
height of image a, which is exactly the number of successful ar.Next()
calls; the br.Next() guard is checked explicitly.  Returns the diff
count and the rows written into the output image. -/
def mainLoop (a b : GoImage) (mo : MatchOptions) (maxDelta aa : ℚ) :
    ℕ → LineReaderState → LineReaderState → ℤ → List ℕ → ℕ × List (List ℕ)
  | 0, _, _, _, _ => (0, [])
  | fuel + 1, sa, sb, y, outLine =>
    match readerNext a sa, readerNext b sb with
    | some sa2, some sb2 =>
      let aLine := sa2.Line.getD []
      let bLine := sb2.Line.getD []
      let r := processRow mo maxDelta aa (sa2.toSource a) (sb2.toSource b)
        a.bounds.min.x y aLine bLine outLine
      let rest := mainLoop a b mo maxDelta aa fuel sa2 sb2 (y + 1) r.2
      (r.1 + rest.1, r.2 :: rest.2)
    | _, _ => (0, [])

/-- The observable outcome of one MatchPixel call: the returned count,
whether ErrImageSizesNotMatch was returned, and the value assigned
through the caller's writeTo pointer (none when the pointer was never
assigned — no slot supplied, error return, or the identical fast
path's early return). -/
structure MatchResult where
  count : ℕ
  sizeMismatch : Bool
  written : Option (List (List ℕ))
deriving DecidableEq

/-- Embeds func MatchPixel(a, b image.Image, opts ...MatchOption) (int,
error) together with its effect on the caller's writeTo slot.  On the
identical fast path the source builds the dimmed grayscale preview into
a fresh buffer but returns before the final `*options.writeTo = out`
assignment, so the slot is never written. -/
def matchPixel (a b : GoImage) (mo : MatchOptions) : MatchResult :=
  if a.bounds.rEq b.bounds = false then ⟨0, true, none⟩
  else if isIdentical a b then ⟨0, false, none⟩
  else
    let maxDelta := maxDeltaOf mo.threshold
    let aa := mo.alpha / 255
    let fuel := (a.bounds.max.y - a.bounds.min.y).toNat
    let outLine0 := List.replicate (4 * a.bounds.dxNat) 255
    let r := mainLoop a b mo maxDelta aa fuel
      (newImageLineReader a a.bounds.min.y) (newImageLineReader b a.bounds.min.y)
      a.bounds.min.y outLine0
    ⟨r.1, false, if mo.writeTo then some r.2 else none⟩

/-! Spec-side formulations, written from the words of the specification
(for refinement claims); each is compared with the corresponding
source-derived definition by a theorem below. -/

/-- Spec formulation of hasManySiblings (spec 4.5b): within the
coordinate's clamped 3x3 neighborhood, more than 2 neighbors whose full
RGBA exactly equals the center, an edge pixel seeding the counter at 1. -/
def hasManySiblingsSpec (src : PixelSource) (x1 y1 : ℤ) : Bool :=
  let x0 := maxInt (x1 - 1) src.rect.min.x
  let y0 := maxInt (y1 - 1) src.rect.min.y
  let x2 := minInt (x1 + 1) (src.rect.max.x - 1)
  let y2 := minInt (y1 + 1) (src.rect.max.y - 1)
  let ns := neighborCoords x0 x2 y0 y2 x1 y1
  let c := src.At x1 y1
  decide (2 < edgeSeed x0 x2 y0 y2 x1 y1 + ns.countP fun p => sameRgba c (src.At p.1 p.2))

/-- Spec formulation of isAntiAliased (spec 4.5): false when more than 2
neighbors (with the edge seed) have exact-zero luma-only delta to the
center; false when no strictly-negative or no strictly-positive luma
extremum exists; otherwise true exactly when the neighbor at the
negative extremum or the neighbor at the positive extremum has many
siblings in both images.  The extremum coordinate is the first neighbor
(in loop order) attaining the extreme delta. -/
def isAntiAliasedSpec (a b : PixelSource) (x1 y1 : ℤ) : Bool :=
  let x0 := maxInt (x1 - 1) a.rect.min.x
  let y0 := maxInt (y1 - 1) a.rect.min.y
  let x2 := minInt (x1 + 1) (a.rect.max.x - 1)
  let y2 := minInt (y1 + 1) (a.rect.max.y - 1)
  let ns := neighborCoords x0 x2 y0 y2 x1 y1
  let c := a.At x1 y1
  let d := fun p : ℤ × ℤ => colorDelta c (a.At p.1 p.2) true
  let zeroCount := edgeSeed x0 x2 y0 y2 x1 y1 + ns.countP fun p => decide (d p = 0)
  let dmin := ns.foldl (fun m p => min m (d p)) 0
  let dmax := ns.foldl (fun m p => max m (d p)) 0
  if 2 < zeroCount then false
  else if dmin = 0 ∨ dmax = 0 then false
  else
    match ns.find? fun p => decide (d p = dmin) with
    | none => false
    | some np =>
      match ns.find? fun p => decide (d p = dmax) with
      | none => false
      | some pp =>
        (hasManySiblingsSpec a np.1 np.2 && hasManySiblingsSpec b np.1 np.2)
          || (hasManySiblingsSpec a pp.1 pp.2 && hasManySiblingsSpec b pp.1 pp.2)

/-- The running-minimum-with-coordinate fold underlying isAntiAliased's
min/minX/minY tracking, isolated for analysis. -/
def minFold (d : ℤ × ℤ → ℚ) : List (ℤ × ℤ) → ℚ × (ℤ × ℤ) → ℚ × (ℤ × ℤ)
  | [], s => s
  | p :: rest, s => minFold d rest (if d p < s.1 then (d p, p) else s)

/-- The running-maximum-with-coordinate fold underlying isAntiAliased's
max/maxX/maxY tracking, isolated for analysis. -/
def maxFold (d : ℤ × ℤ → ℚ) : List (ℤ × ℤ) → ℚ × (ℤ × ℤ) → ℚ × (ℤ × ℤ)
  | [], s => s
  | p :: rest, s => maxFold d rest (if s.1 < d p then (d p, p) else s)

/-- The blended I chroma of a color, as computed inside colorDelta. -/
def chromaI (c : Rgba) : ℚ :=
  rgbaToI (effectiveRGB c).1 (effectiveRGB c).2.1 (effectiveRGB c).2.2

/-- The blended Q chroma of a color, as computed inside colorDelta. -/
def chromaQ (c : Rgba) : ℚ :=
  rgbaToQ (effectiveRGB c).1 (effectiveRGB c).2.1 (effectiveRGB c).2.2

/-- The magnitude 0.5053*y*y + 0.299*i*i + 0.1957*q*q computed by
colorDelta before the sign is applied. -/
def deltaMag (a b : Rgba) : ℚ :=
  0.5053 * (lumaY a - lumaY b) * (lumaY a - lumaY b)
    + 0.299 * (chromaI a - chromaI b) * (chromaI a - chromaI b)
    + 0.1957 * (chromaQ a - chromaQ b) * (chromaQ a - chromaQ b)

/-- The state of a line reader after k successful Next() calls starting
at the image's top row: the cursor sits at min.y + k and each window
slot i holds the line of row (min.y + k - 1) + (i - 2) when that row is
inside the image. -/
def readerSpec (img : GoImage) (k : ℕ) : LineReaderState :=
  { y := img.bounds.min.y + k
    lines := fun i => windowLine img (img.bounds.min.y + k - 1 + ((i : ℤ) - 2)) }

/-! Theorems.  Helper lemmas come first, then one theorem per claim
(with witnesses and counterexamples as separate closed theorems). -/

/-- On colors that differ in some channel, colorDelta with yOnly=false
is the signed magnitude. -/
lemma colorDelta_false_eq (a b : Rgba)
    (h : ¬(a.A = b.A ∧ a.R = b.R ∧ a.G = b.G ∧ a.B = b.B)) :
    colorDelta a b false = if lumaY b < lumaY a then -(deltaMag a b) else deltaMag a b := by
  simp only [colorDelta, if_neg h, lumaY, chromaI, chromaQ, deltaMag]
  rfl

/-- On colors that differ in some channel, colorDelta with yOnly=true is
the luma difference. -/
lemma colorDelta_true_eq (a b : Rgba)
    (h : ¬(a.A = b.A ∧ a.R = b.R ∧ a.G = b.G ∧ a.B = b.B)) :
    colorDelta a b true = lumaY a - lumaY b := by
  simp only [colorDelta, if_neg h, lumaY]
  rfl

/-- Colors equal in all four channels are equal. -/
lemma rgba_eq_of_channels (a b : Rgba)
    (h : a.A = b.A ∧ a.R = b.R ∧ a.G = b.G ∧ a.B = b.B) : a = b := by
  obtain ⟨h1, h2, h3, h4⟩ := h
  cases a; cases b; simp_all

/-- The magnitude is symmetric in its two colors. -/
lemma deltaMag_comm (a b : Rgba) : deltaMag a b = deltaMag b a := by
  unfold deltaMag; ring

/-- The magnitude is nonnegative. -/
lemma deltaMag_nonneg (a b : Rgba) : 0 ≤ deltaMag a b := by
  unfold deltaMag
  nlinarith [mul_self_nonneg (lumaY a - lumaY b), mul_self_nonneg (chromaI a - chromaI b),
    mul_self_nonneg (chromaQ a - chromaQ b)]

/-- The magnitude is strictly positive when the blended lumas differ. -/
lemma deltaMag_pos (a b : Rgba) (h : lumaY a ≠ lumaY b) : 0 < deltaMag a b := by
  unfold deltaMag
  nlinarith [mul_self_pos.mpr (sub_ne_zero.mpr h), mul_self_nonneg (chromaI a - chromaI b),
    mul_self_nonneg (chromaQ a - chromaQ b)]

/-- C5 (amended): the full perceptual delta is symmetric in magnitude,
nonnegative exactly when the first color's blended luma is at most the
second's, strictly negative otherwise, and antisymmetric whenever the
two blended lumas differ (when the lumas are exactly equal the two
orders return the same, possibly nonzero, value). -/
theorem colorDelta_sign_symmetry (a b : Rgba) :
    |colorDelta a b false| = |colorDelta b a false| ∧
    (lumaY a ≤ lumaY b → 0 ≤ colorDelta a b false) ∧
    (lumaY b < lumaY a → colorDelta a b false < 0) ∧
    (lumaY a ≠ lumaY b → colorDelta a b false = -colorDelta b a false) := by
  by_cases h : a.A = b.A ∧ a.R = b.R ∧ a.G = b.G ∧ a.B = b.B
  · have hab := rgba_eq_of_channels a b h
    subst hab
    refine ⟨rfl, ?_, ?_, ?_⟩
    · intro _
      simp [colorDelta]
    · intro hlt
      exact absurd hlt (lt_irrefl _)
    · intro hne
      exact absurd rfl hne
  · have hba : ¬(b.A = a.A ∧ b.R = a.R ∧ b.G = a.G ∧ b.B = a.B) := by
      intro hc
      exact h ⟨hc.1.symm, hc.2.1.symm, hc.2.2.1.symm, hc.2.2.2.symm⟩
    rw [colorDelta_false_eq a b h, colorDelta_false_eq b a hba, deltaMag_comm b a]
    rcases lt_trichotomy (lumaY a) (lumaY b) with hlt | heq | hgt
    · rw [if_neg (not_lt.mpr hlt.le), if_pos hlt]
      refine ⟨(abs_neg _).symm, fun _ => deltaMag_nonneg a b, ?_, ?_⟩
      · intro hc
        exact absurd hc (not_lt.mpr hlt.le)
      · intro _
        ring
    · rw [heq]
      rw [if_neg (lt_irrefl _)]
      exact ⟨rfl, fun _ => deltaMag_nonneg a b, fun hc => absurd rfl hc.ne,
        fun hne => absurd rfl hne⟩
    · rw [if_pos hgt, if_neg (not_lt.mpr hgt.le)]
      refine ⟨abs_neg _, fun hc => absurd hgt (not_lt.mpr hc), ?_, fun _ => rfl⟩
      intro _
      simpa using deltaMag_pos a b (fun hc => absurd hgt (hc ▸ lt_irrefl _))

/-- C5 witness: symmetry and antisymmetry at a concrete pair of opaque
colors whose blended lumas differ. -/
theorem colorDelta_sign_symmetry_witness :
    |colorDelta ⟨10, 20, 30, 65535⟩ ⟨99, 0, 0, 65535⟩ false| =
      |colorDelta ⟨99, 0, 0, 65535⟩ ⟨10, 20, 30, 65535⟩ false| ∧
    colorDelta ⟨10, 20, 30, 65535⟩ ⟨99, 0, 0, 65535⟩ false =
      -colorDelta ⟨99, 0, 0, 65535⟩ ⟨10, 20, 30, 65535⟩ false :=
  ⟨(colorDelta_sign_symmetry _ _).1, (colorDelta_sign_symmetry _ _).2.2.2
    (by norm_num [lumaY, effectiveRGB, scaleChan, blendRGBA, blend, rgbaToY])⟩

/-- C5 counterexample: two distinct opaque colors with exactly equal
blended luma but different chroma; colorDelta returns the same strictly
positive value in both orders, so the sign does not flip. -/
theorem colorDelta_not_antisymmetric :
    ¬ colorDelta ⟨0, 0, 10871, 65535⟩ ⟨3, 2120, 0, 65535⟩ false =
      -colorDelta ⟨3, 2120, 0, 65535⟩ ⟨0, 0, 10871, 65535⟩ false := by
  norm_num [colorDelta, effectiveRGB, scaleChan, blendRGBA, blend, rgbaToY, rgbaToI, rgbaToQ]

/-- C1 (amended): MatchPixel returns ErrImageSizesNotMatch (with a zero
count and no write through the output slot) exactly when the two bounds
rectangles are unequal as rectangles — identical Min and Max corners, or
both empty.  Equal width and height alone do not prevent the error when
the origin offsets differ. -/
theorem matchPixel_sizeMismatch_iff (a b : GoImage) (mo : MatchOptions) :
    (matchPixel a b mo).sizeMismatch = !(a.bounds.rEq b.bounds) ∧
    (a.bounds.rEq b.bounds = false → matchPixel a b mo = ⟨0, true, none⟩) := by
  cases hr : a.bounds.rEq b.bounds with
  | false => exact ⟨by simp [matchPixel, hr], fun _ => by simp [matchPixel, hr]⟩
  | true =>
    refine ⟨?_, fun hc => by simp [hr] at hc⟩
    unfold matchPixel
    rw [hr]
    simp only [Bool.not_true]
    rw [if_neg (by simp)]
    split <;> rfl

/-- C1 witness: the characterization applied to a concrete mismatched
pair. -/
theorem matchPixel_sizeMismatch_iff_witness :
    matchPixel (.generic ⟨⟨⟨0, 0⟩, ⟨2, 1⟩⟩, fun _ _ => zeroRgba⟩)
      (.generic ⟨⟨⟨0, 0⟩, ⟨1, 1⟩⟩, fun _ _ => zeroRgba⟩) defaultOptions =
      ⟨0, true, none⟩ :=
  (matchPixel_sizeMismatch_iff _ _ _).2 (by decide)

/-- C1 counterexample: two images of identical 1x1 dimensions whose
origin offsets differ; the claim says the size-mismatch error is not
returned, but MatchPixel returns it (Bounds().Eq compares the full
rectangles). -/
theorem matchPixel_errors_on_equal_dims :
    (GoImage.generic ⟨⟨⟨0, 0⟩, ⟨1, 1⟩⟩, fun _ _ => zeroRgba⟩).bounds.dx =
      (GoImage.generic ⟨⟨⟨1, 1⟩, ⟨2, 2⟩⟩, fun _ _ => zeroRgba⟩).bounds.dx ∧
    (GoImage.generic ⟨⟨⟨0, 0⟩, ⟨1, 1⟩⟩, fun _ _ => zeroRgba⟩).bounds.dy =
      (GoImage.generic ⟨⟨⟨1, 1⟩, ⟨2, 2⟩⟩, fun _ _ => zeroRgba⟩).bounds.dy ∧
    matchPixel (.generic ⟨⟨⟨0, 0⟩, ⟨1, 1⟩⟩, fun _ _ => zeroRgba⟩)
      (.generic ⟨⟨⟨1, 1⟩, ⟨2, 2⟩⟩, fun _ _ => zeroRgba⟩) defaultOptions =
      ⟨0, true, none⟩ := by
  refine ⟨by decide, by decide, ?_⟩
  unfold matchPixel
  rw [if_pos (by decide)]

/-- C10: when the bounds differ, MatchPixel returns the size-mismatch
error with count 0 and never assigns through the caller's writeTo
pointer (the early return precedes the only assignment), so the
caller-supplied slot keeps its previous value. -/
theorem matchPixel_mismatch_no_write (a b : GoImage) (mo : MatchOptions)
    (h : a.bounds.rEq b.bounds = false) (_hw : mo.writeTo = true) :
    matchPixel a b mo = ⟨0, true, none⟩ := by
  simp [matchPixel, h]

/-- C10 witness: a concrete mismatched pair with an output slot
supplied. -/
theorem matchPixel_mismatch_no_write_witness :
    matchPixel (.generic ⟨⟨⟨0, 0⟩, ⟨3, 1⟩⟩, fun _ _ => zeroRgba⟩)
      (.generic ⟨⟨⟨0, 0⟩, ⟨1, 1⟩⟩, fun _ _ => zeroRgba⟩)
      { defaultOptions with writeTo := true } = ⟨0, true, none⟩ :=
  matchPixel_mismatch_no_write _ _ _ (by decide) (by decide)

/-- C3 (code evaluated at the failing input): two byte-identical 1x1
NRGBA images with an output slot supplied and masking off.  The
identical fast path is taken, the diff count is 0, but the caller's slot
is never assigned (the source returns before `*options.writeTo = out`),
so no dimmed grayscale preview is delivered. -/
theorem matchPixel_identical_drops_preview :
    isIdentical (.nrgba ⟨[10, 20, 30, 255], 4, ⟨⟨0, 0⟩, ⟨1, 1⟩⟩⟩)
      (.nrgba ⟨[10, 20, 30, 255], 4, ⟨⟨0, 0⟩, ⟨1, 1⟩⟩⟩) = true ∧
    matchPixel (.nrgba ⟨[10, 20, 30, 255], 4, ⟨⟨0, 0⟩, ⟨1, 1⟩⟩⟩)
      (.nrgba ⟨[10, 20, 30, 255], 4, ⟨⟨0, 0⟩, ⟨1, 1⟩⟩⟩)
      { defaultOptions with writeTo := true } = ⟨0, false, none⟩ := by
  refine ⟨by decide, ?_⟩
  unfold matchPixel
  rw [if_neg (by decide), if_pos (by decide)]

set_option maxHeartbeats 2000000 in
/-- C6 (amended): the cutoff is 35215 * threshold^2, but 35215 is not an
upper bound on the perceptual delta over canonical (16-bit) colors:
opaque red versus opaque cyan exceeds it, and at threshold 1 the 1x1
red/cyan pair yields diff count 1 rather than 0. -/
theorem maxDelta_cutoff_exceeded :
    (∀ t : ℚ, maxDeltaOf t = 35215 * t ^ 2) ∧
    35215 < |colorDelta ⟨65535, 0, 0, 65535⟩ ⟨0, 65535, 65535, 65535⟩ false| ∧
    matchPixel (.generic ⟨⟨⟨0, 0⟩, ⟨1, 1⟩⟩, fun _ _ => ⟨65535, 0, 0, 65535⟩⟩)
      (.generic ⟨⟨⟨0, 0⟩, ⟨1, 1⟩⟩, fun _ _ => ⟨0, 65535, 65535, 65535⟩⟩)
      { defaultOptions with threshold := 1 } = ⟨1, false, none⟩ := by
  refine ⟨fun t => by unfold maxDeltaOf; ring, ?_, ?_⟩
  · rw [show colorDelta ⟨65535, 0, 0, 65535⟩ ⟨0, 65535, 65535, 65535⟩ false =
      1860719163007228196118719157 / 52428800000000000000000 from by
        norm_num [colorDelta, effectiveRGB, scaleChan, blendRGBA, blend, rgbaToY,
          rgbaToI, rgbaToQ]]
    rw [abs_of_pos (by norm_num)]
    norm_num
  · norm_num [matchPixel, maxDeltaOf, mainLoop, processRow, processPixel, readerNext,
      newImageLineReader, windowLine, LineReaderState.Line, LineReaderState.Yr,
      LineReaderState.At, LineReaderState.toSource, GoImage.readLine, GoImage.bounds,
      GoImage.colorAt, Rectangle.rEq, Rectangle.empty, Rectangle.dx, Rectangle.dy,
      Rectangle.dxNat, isIdentical, colorDelta, effectiveRGB, scaleChan, blendRGBA, blend,
      rgbaToY, rgbaToI, rgbaToQ, isAntiAliased, aaLoop, hasManySiblings, siblingLoop,
      sameRgba, neighborCoords, intRange, edgeSeed, maxInt, minInt, dimmedGray, goUint8,
      setRGBBytes, defaultOptions, List.range_succ]
    rw [abs_of_pos (by norm_num), if_pos (by norm_num)]

/-- C6 counterexample: 35215 does not bound the magnitude of the
perceptual delta: the opaque red / opaque cyan pair exceeds it. -/
theorem colorDelta_exceeds_35215 :
    ¬ |colorDelta ⟨65535, 0, 0, 65535⟩ ⟨0, 65535, 65535, 65535⟩ false| ≤ 35215 := by
  rw [show colorDelta ⟨65535, 0, 0, 65535⟩ ⟨0, 65535, 65535, 65535⟩ false =
    1860719163007228196118719157 / 52428800000000000000000 from by
      norm_num [colorDelta, effectiveRGB, scaleChan, blendRGBA, blend, rgbaToY,
        rgbaToI, rgbaToQ]]
  rw [abs_of_pos (by norm_num)]
  norm_num

/-- C7 (amended): the alpha blend toward white, with channels and alpha
in the scaled 0..255.996 range, is applied exactly when the scaled alpha
is strictly below 255, i.e. when A < 65280; every color with A ≥ 65280 —
not only the fully opaque ones — is left unchanged. -/
theorem effectiveRGB_characterization (c : Rgba) :
    (c.A < 65280 →
      effectiveRGB c =
        (255 + (scaleChan c.R - 255) * (scaleChan c.A / 255),
         255 + (scaleChan c.G - 255) * (scaleChan c.A / 255),
         255 + (scaleChan c.B - 255) * (scaleChan c.A / 255))) ∧
    (65280 ≤ c.A →
      effectiveRGB c = (scaleChan c.R, scaleChan c.G, scaleChan c.B)) := by
  have hiff : scaleChan c.A < 255 ↔ c.A < 65280 := by
    unfold scaleChan
    rw [show (65280 : ℕ) = 65280 from rfl]
    constructor
    · intro h
      by_contra hc
      push_neg at hc
      have : (65280 : ℚ) ≤ (c.A : ℚ) := by exact_mod_cast hc
      linarith
    · intro h
      have : (c.A : ℚ) < 65280 := by exact_mod_cast h
      linarith
  constructor
  · intro h
    rw [effectiveRGB, if_pos (hiff.mpr h)]
    rfl
  · intro h
    rw [effectiveRGB, if_neg (by rw [hiff]; omega)]

/-- C7 witness: the characterization applied to a transparent color and
to a fully opaque one. -/
theorem effectiveRGB_characterization_witness :
    effectiveRGB ⟨10, 20, 30, 100⟩ =
      (255 + (scaleChan 10 - 255) * (scaleChan 100 / 255),
       255 + (scaleChan 20 - 255) * (scaleChan 100 / 255),
       255 + (scaleChan 30 - 255) * (scaleChan 100 / 255)) ∧
    effectiveRGB ⟨1, 2, 3, 65535⟩ = (scaleChan 1, scaleChan 2, scaleChan 3) :=
  ⟨(effectiveRGB_characterization ⟨10, 20, 30, 100⟩).1 (by decide),
    (effectiveRGB_characterization ⟨1, 2, 3, 65535⟩).2 (by decide)⟩

/-- C7 counterexample: the color with A = 65408 has alpha coverage below
full, yet its channels are left unchanged, and the value the claim's
formula prescribes differs from the unchanged channel. -/
theorem effectiveRGB_not_blended_below_full :
    (65408 : ℕ) < 65535 ∧
    effectiveRGB ⟨0, 0, 0, 65408⟩ = (scaleChan 0, scaleChan 0, scaleChan 0) ∧
    255 + (scaleChan 0 - 255) * (scaleChan 65408 / 255) ≠ scaleChan 0 := by
  refine ⟨by decide, ?_, by norm_num [scaleChan]⟩
  norm_num [effectiveRGB, scaleChan]

set_option maxHeartbeats 4000000 in
/-- C9 (code evaluated at the failing input): 1x1-wide, 2-row images,
masking on, output requested; row 0 differs and is counted, row 1 is
unchanged.  The claim says the unchanged pixel at (0,1) is left
unrendered, but the row buffer is reused across rows after being
initialized to 0xff, so the output row 1 still carries row 0's diff
highlight (255,0,0,255) instead of being empty. -/
theorem diffMask_leaks_previous_row :
    matchPixel (.generic ⟨⟨⟨0, 0⟩, ⟨1, 2⟩⟩, fun _ _ => ⟨0, 0, 0, 65535⟩⟩)
      (.generic ⟨⟨⟨0, 0⟩, ⟨1, 2⟩⟩,
        fun _ y => if y = 0 then ⟨65535, 65535, 65535, 65535⟩ else ⟨0, 0, 0, 65535⟩⟩)
      { defaultOptions with diffMask := true, writeTo := true } =
      ⟨1, false, some [[255, 0, 0, 255], [255, 0, 0, 255]]⟩ := by
  norm_num [matchPixel, maxDeltaOf, mainLoop, processRow, processPixel, readerNext,
    newImageLineReader, windowLine, LineReaderState.Line, LineReaderState.Yr,
    LineReaderState.At, LineReaderState.toSource, GoImage.readLine, GoImage.bounds,
    GoImage.colorAt, Rectangle.rEq, Rectangle.empty, Rectangle.dx, Rectangle.dy,
    Rectangle.dxNat, isIdentical, colorDelta, effectiveRGB, scaleChan, blendRGBA, blend,
    rgbaToY, rgbaToI, rgbaToQ, isAntiAliased, aaLoop, hasManySiblings, siblingLoop,
    sameRgba, neighborCoords, intRange, edgeSeed, maxInt, minInt, dimmedGray, goUint8,
    setRGBBytes, defaultOptions, List.range_succ]
  rw [abs_of_pos (by norm_num), if_pos (by norm_num)]
  exact ⟨rfl, rfl⟩

/-- The edge seed is at most 1. -/
lemma edgeSeed_le_one (x0 x2 y0 y2 x1 y1 : ℤ) : edgeSeed x0 x2 y0 y2 x1 y1 ≤ 1 := by
  unfold edgeSeed
  split <;> omega

/-- The sibling-counting loop, started at a counter of at most 2,
returns true exactly when the counter plus the number of exactly-equal
neighbors exceeds 2. -/
lemma siblingLoop_eq (c : Rgba) (src : PixelSource) (l : List (ℤ × ℤ)) :
    ∀ z : ℕ, z ≤ 2 →
      siblingLoop c src l z =
        decide (2 < z + l.countP fun p => sameRgba c (src.At p.1 p.2)) := by
  induction l with
  | nil =>
    intro z hz
    simp only [siblingLoop, List.countP_nil, Nat.add_zero]
    symm
    simp only [decide_eq_false_iff_not]
    omega
  | cons p rest ih =>
    intro z hz
    rw [siblingLoop, List.countP_cons]
    by_cases h : sameRgba c (src.At p.1 p.2) = true
    · rw [if_pos h, if_pos h]
      by_cases h2 : 2 < z + 1
      · rw [if_pos h2]
        symm
        simp only [decide_eq_true_eq]
        omega
      · rw [if_neg h2, ih (z + 1) (by omega), decide_eq_decide]
        omega
    · rw [if_neg h, if_neg h]
      rw [if_neg (show ¬ 2 < z by omega), ih z hz, decide_eq_decide]
      omega

/-- hasManySiblings computes its specification: more than 2
exactly-RGBA-equal neighbors in the clamped 3x3 neighborhood, with the
edge seed. -/
lemma hasManySiblings_eq_spec (src : PixelSource) (x1 y1 : ℤ) :
    hasManySiblings src x1 y1 = hasManySiblingsSpec src x1 y1 := by
  unfold hasManySiblings hasManySiblingsSpec
  exact siblingLoop_eq _ _ _ _ ((edgeSeed_le_one _ _ _ _ _ _).trans (by omega))

/-- The running minimum over a list never exceeds its seed. -/
lemma foldl_min_le (d : ℤ × ℤ → ℚ) (l : List (ℤ × ℤ)) :
    ∀ m : ℚ, l.foldl (fun a q => min a (d q)) m ≤ m := by
  induction l with
  | nil => intro m; simp
  | cons p rest ih =>
    intro m
    simp only [List.foldl_cons]
    exact (ih _).trans (min_le_left _ _)

/-- The running minimum is the seed or is attained by some element. -/
lemma foldl_min_attained (d : ℤ × ℤ → ℚ) (l : List (ℤ × ℤ)) :
    ∀ m : ℚ, l.foldl (fun a q => min a (d q)) m = m ∨
      ∃ p ∈ l, d p = l.foldl (fun a q => min a (d q)) m := by
  induction l with
  | nil => intro m; exact Or.inl rfl
  | cons p rest ih =>
    intro m
    simp only [List.foldl_cons]
    rcases ih (min m (d p)) with h | ⟨q, hq, hdq⟩
    · rw [h]
      rcases le_total m (d p) with hle | hle
      · rw [min_eq_left hle]
        exact Or.inl rfl
      · rw [min_eq_right hle]
        exact Or.inr ⟨p, List.mem_cons_self _ _, rfl⟩
    · exact Or.inr ⟨q, List.mem_cons_of_mem _ hq, hdq⟩

/-- The running maximum over a list never falls below its seed. -/
lemma foldl_max_ge (d : ℤ × ℤ → ℚ) (l : List (ℤ × ℤ)) :
    ∀ m : ℚ, m ≤ l.foldl (fun a q => max a (d q)) m := by
  induction l with
  | nil => intro m; simp
  | cons p rest ih =>
    intro m
    simp only [List.foldl_cons]
    exact (le_max_left _ _).trans (ih _)

/-- The running maximum is the seed or is attained by some element. -/
lemma foldl_max_attained (d : ℤ × ℤ → ℚ) (l : List (ℤ × ℤ)) :
    ∀ m : ℚ, l.foldl (fun a q => max a (d q)) m = m ∨
      ∃ p ∈ l, d p = l.foldl (fun a q => max a (d q)) m := by
  induction l with
  | nil => intro m; exact Or.inl rfl
  | cons p rest ih =>
    intro m
    simp only [List.foldl_cons]
    rcases ih (max m (d p)) with h | ⟨q, hq, hdq⟩
    · rw [h]
      rcases le_total m (d p) with hle | hle
      · rw [max_eq_right hle]
        exact Or.inr ⟨p, List.mem_cons_self _ _, rfl⟩
      · rw [max_eq_left hle]
        exact Or.inl rfl
    · exact Or.inr ⟨q, List.mem_cons_of_mem _ hq, hdq⟩

/-- The value component of the min-tracking fold is the running
minimum. -/
lemma minFold_fst (d : ℤ × ℤ → ℚ) (l : List (ℤ × ℤ)) :
    ∀ m mp, (minFold d l (m, mp)).1 = l.foldl (fun a q => min a (d q)) m := by
  induction l with
  | nil => intro m mp; rfl
  | cons p rest ih =>
    intro m mp
    rw [minFold, List.foldl_cons]
    by_cases h : d p < m
    · rw [if_pos h, min_eq_right h.le, ih]
    · rw [if_neg h, min_eq_left (not_lt.mp h), ih]

/-- The coordinate component of the min-tracking fold: the first element
attaining the running minimum when the minimum improved on the seed, the
seed coordinate otherwise. -/
lemma minFold_snd (d : ℤ × ℤ → ℚ) (l : List (ℤ × ℤ)) :
    ∀ m mp, (minFold d l (m, mp)).2 =
      if l.foldl (fun a q => min a (d q)) m < m then
        (l.find? fun p => decide (d p = l.foldl (fun a q => min a (d q)) m)).getD mp
      else mp := by
  induction l with
  | nil =>
    intro m mp
    simp [minFold]
  | cons p rest ih =>
    intro m mp
    rw [minFold, List.foldl_cons]
    by_cases h : d p < m
    · rw [if_pos h, min_eq_right h.le]
      have hvle : rest.foldl (fun a q => min a (d q)) (d p) ≤ d p := foldl_min_le _ _ _
      rw [if_pos (lt_of_le_of_lt hvle h)]
      by_cases hv : rest.foldl (fun a q => min a (d q)) (d p) < d p
      · rw [List.find?_cons_of_neg _ (by simp [ne_of_gt hv])]
        rw [ih (d p) p, if_pos hv]
        rcases foldl_min_attained d rest (d p) with he | ⟨q, hq, hdq⟩
        · exact absurd he (ne_of_lt hv)
        · have hs : (rest.find? fun r =>
              decide (d r = rest.foldl (fun a q => min a (d q)) (d p))).isSome := by
            rw [List.find?_isSome]
            exact ⟨q, hq, by simp [hdq]⟩
          obtain ⟨o, ho⟩ := Option.isSome_iff_exists.mp hs
          rw [ho]
          rfl
      · have he : rest.foldl (fun a q => min a (d q)) (d p) = d p :=
          le_antisymm hvle (not_lt.mp hv)
        rw [List.find?_cons_of_pos _ (by simp [he])]
        rw [ih (d p) p, if_neg hv]
        rfl
    · rw [if_neg h, min_eq_left (not_lt.mp h), ih m mp]
      by_cases hc : rest.foldl (fun a q => min a (d q)) m < m
      · rw [if_pos hc, if_pos hc]
        have hne : ¬ d p = rest.foldl (fun a q => min a (d q)) m := by
          have : rest.foldl (fun a q => min a (d q)) m < d p :=
            lt_of_lt_of_le hc (not_lt.mp h)
          exact (ne_of_gt this)
        rw [List.find?_cons_of_neg _ (by simp [hne])]
      · rw [if_neg hc, if_neg hc]

/-- The value component of the max-tracking fold is the running
maximum. -/
lemma maxFold_fst (d : ℤ × ℤ → ℚ) (l : List (ℤ × ℤ)) :
    ∀ m mp, (maxFold d l (m, mp)).1 = l.foldl (fun a q => max a (d q)) m := by
  induction l with
  | nil => intro m mp; rfl
  | cons p rest ih =>
    intro m mp
    rw [maxFold, List.foldl_cons]
    by_cases h : m < d p
    · rw [if_pos h, max_eq_right h.le, ih]
    · rw [if_neg h, max_eq_left (not_lt.mp h), ih]

/-- The coordinate component of the max-tracking fold: the first element
attaining the running maximum when the maximum improved on the seed, the
seed coordinate otherwise. -/
lemma maxFold_snd (d : ℤ × ℤ → ℚ) (l : List (ℤ × ℤ)) :
    ∀ m mp, (maxFold d l (m, mp)).2 =
      if m < l.foldl (fun a q => max a (d q)) m then
        (l.find? fun p => decide (d p = l.foldl (fun a q => max a (d q)) m)).getD mp
      else mp := by
  induction l with
  | nil =>
    intro m mp
    simp [maxFold]
  | cons p rest ih =>
    intro m mp
    rw [maxFold, List.foldl_cons]
    by_cases h : m < d p
    · rw [if_pos h, max_eq_right h.le]
      have hvge : d p ≤ rest.foldl (fun a q => max a (d q)) (d p) := foldl_max_ge _ _ _
      rw [if_pos (lt_of_lt_of_le h hvge)]
      by_cases hv : d p < rest.foldl (fun a q => max a (d q)) (d p)
      · rw [List.find?_cons_of_neg _ (by simp [ne_of_lt hv])]
        rw [ih (d p) p, if_pos hv]
        rcases foldl_max_attained d rest (d p) with he | ⟨q, hq, hdq⟩
        · exact absurd he.symm (ne_of_lt hv)
        · have hs : (rest.find? fun r =>
              decide (d r = rest.foldl (fun a q => max a (d q)) (d p))).isSome := by
            rw [List.find?_isSome]
            exact ⟨q, hq, by simp [hdq]⟩
          obtain ⟨o, ho⟩ := Option.isSome_iff_exists.mp hs
          rw [ho]
          rfl
      · have he : rest.foldl (fun a q => max a (d q)) (d p) = d p :=
          le_antisymm (not_lt.mp hv) hvge
        rw [List.find?_cons_of_pos _ (by simp [he])]
        rw [ih (d p) p, if_neg hv]
        rfl
    · rw [if_neg h, max_eq_left (not_lt.mp h), ih m mp]
      by_cases hc : m < rest.foldl (fun a q => max a (d q)) m
      · rw [if_pos hc, if_pos hc]
        have hne : ¬ d p = rest.foldl (fun a q => max a (d q)) m := by
          have : d p < rest.foldl (fun a q => max a (d q)) m :=
            lt_of_le_of_lt (not_lt.mp h) hc
          exact ne_of_lt this
        rw [List.find?_cons_of_neg _ (by simp [hne])]
      · rw [if_neg hc, if_neg hc]

/-- The neighbor loop of isAntiAliased decomposes into the zero count
(with its early false exit), the min-tracking fold and the max-tracking
fold, provided the starting counter is at most 2 and the starting
extrema straddle 0 (as they do at the loop entry). -/
lemma aaLoop_decompose (c : Rgba) (src : PixelSource) (l : List (ℤ × ℤ)) :
    ∀ s : AAState, s.zeroes ≤ 2 → s.dmin ≤ 0 → 0 ≤ s.dmax →
      aaLoop c src l s =
        (if 2 < s.zeroes +
            l.countP (fun p => decide (colorDelta c (src.At p.1 p.2) true = 0)) then none
         else some
          { zeroes := s.zeroes +
              l.countP fun p => decide (colorDelta c (src.At p.1 p.2) true = 0)
            dmin := (minFold (fun p => colorDelta c (src.At p.1 p.2) true) l
              (s.dmin, s.minP)).1
            dmax := (maxFold (fun p => colorDelta c (src.At p.1 p.2) true) l
              (s.dmax, s.maxP)).1
            minP := (minFold (fun p => colorDelta c (src.At p.1 p.2) true) l
              (s.dmin, s.minP)).2
            maxP := (maxFold (fun p => colorDelta c (src.At p.1 p.2) true) l
              (s.dmax, s.maxP)).2 }) := by
  induction l with
  | nil =>
    intro s hz hmn hmx
    rw [if_neg (show ¬ 2 < s.zeroes + List.countP _ [] by simp; omega)]
    rfl
  | cons p rest ih =>
    intro s hz hmn hmx
    rw [aaLoop, List.countP_cons]
    simp only [minFold, maxFold]
    by_cases h0 : colorDelta c (src.At p.1 p.2) true = 0
    · rw [if_pos h0]
      rw [show (if (fun q : ℤ × ℤ =>
          decide (colorDelta c (src.At q.1 q.2) true = 0)) p = true then 1 else 0) = 1
        from by simp [h0]]
      rw [if_neg (show ¬ colorDelta c (src.At p.1 p.2) true < s.dmin by
        rw [h0]; exact not_lt.mpr hmn)]
      rw [if_neg (show ¬ s.dmax < colorDelta c (src.At p.1 p.2) true by
        rw [h0]; exact not_lt.mpr hmx)]
      by_cases h1 : 2 < s.zeroes + 1
      · rw [if_pos h1]
        rw [if_pos (show 2 < s.zeroes + (List.countP (fun q : ℤ × ℤ =>
          decide (colorDelta c (src.At q.1 q.2) true = 0)) rest + 1) by omega)]
      · rw [if_neg h1]
        rw [ih { s with zeroes := s.zeroes + 1 } (by simp only []; omega) hmn hmx]
        simp only []
        by_cases h2 : 2 < s.zeroes + 1 + List.countP
            (fun q : ℤ × ℤ => decide (colorDelta c (src.At q.1 q.2) true = 0)) rest
        · rw [if_pos h2]
          rw [if_pos (show 2 < s.zeroes + (List.countP (fun q : ℤ × ℤ =>
            decide (colorDelta c (src.At q.1 q.2) true = 0)) rest + 1) by omega)]
        · rw [if_neg h2]
          rw [if_neg (show ¬ 2 < s.zeroes + (List.countP (fun q : ℤ × ℤ =>
            decide (colorDelta c (src.At q.1 q.2) true = 0)) rest + 1) by omega)]
          rw [show s.zeroes + 1 + List.countP (fun q : ℤ × ℤ =>
              decide (colorDelta c (src.At q.1 q.2) true = 0)) rest =
            s.zeroes + (List.countP (fun q : ℤ × ℤ =>
              decide (colorDelta c (src.At q.1 q.2) true = 0)) rest + 1) from by omega]
    · rw [if_neg h0]
      rw [show (if (fun q : ℤ × ℤ =>
          decide (colorDelta c (src.At q.1 q.2) true = 0)) p = true then 1 else 0) = 0
        from by simp [h0]]
      rw [Nat.add_zero]
      by_cases h2 : colorDelta c (src.At p.1 p.2) true < s.dmin
      · rw [if_pos h2, if_pos h2]
        rw [if_neg (show ¬ s.dmax < colorDelta c (src.At p.1 p.2) true from
          not_lt.mpr ((h2.le.trans hmn).trans hmx))]
        exact ih { s with dmin := colorDelta c (src.At p.1 p.2) true, minP := p } hz
          (h2.le.trans hmn) hmx
      · rw [if_neg h2, if_neg h2]
        by_cases h3 : s.dmax < colorDelta c (src.At p.1 p.2) true
        · rw [if_pos h3, if_pos h3]
          exact ih { s with dmax := colorDelta c (src.At p.1 p.2) true, maxP := p } hz
            hmn (hmx.trans h3.le)
        · rw [if_neg h3, if_neg h3]
          exact ih s hz hmn hmx

/-- C2: isAntiAliased computes its specification: false as soon as more
than 2 neighbors (an edge pixel seeding the counter at 1) have
exact-zero luma-only delta to the center, false when no
strictly-negative or no strictly-positive extremum exists among the
neighbor deltas, and otherwise true exactly when the neighbor at the
negative extremum or the neighbor at the positive extremum has more than
2 exactly-RGBA-equal neighbors in both images. -/
theorem isAntiAliased_eq_spec (a b : PixelSource) (x1 y1 : ℤ) :
    isAntiAliased a b x1 y1 = isAntiAliasedSpec a b x1 y1 := by
  unfold isAntiAliased isAntiAliasedSpec
  dsimp only
  rw [aaLoop_decompose _ _ _ _ ((edgeSeed_le_one _ _ _ _ _ _).trans (by omega)) le_rfl le_rfl]
  by_cases hcnt : 2 <
      edgeSeed (maxInt (x1 - 1) a.rect.min.x) (minInt (x1 + 1) (a.rect.max.x - 1))
        (maxInt (y1 - 1) a.rect.min.y) (minInt (y1 + 1) (a.rect.max.y - 1)) x1 y1 +
      (neighborCoords (maxInt (x1 - 1) a.rect.min.x) (minInt (x1 + 1) (a.rect.max.x - 1))
          (maxInt (y1 - 1) a.rect.min.y) (minInt (y1 + 1) (a.rect.max.y - 1)) x1 y1).countP
        fun p => decide (colorDelta (a.At x1 y1) (a.At p.1 p.2) true = 0)
  · rw [if_pos hcnt, if_pos hcnt]
  · rw [if_neg hcnt, if_neg hcnt]
    dsimp only
    rw [minFold_fst, minFold_snd, maxFold_fst, maxFold_snd]
    set ns := neighborCoords (maxInt (x1 - 1) a.rect.min.x)
      (minInt (x1 + 1) (a.rect.max.x - 1)) (maxInt (y1 - 1) a.rect.min.y)
      (minInt (y1 + 1) (a.rect.max.y - 1)) x1 y1 with hns
    set d := fun p : ℤ × ℤ => colorDelta (a.At x1 y1) (a.At p.1 p.2) true with hd
    set vmin := ns.foldl (fun m p => min m (d p)) 0 with hvmin
    set vmax := ns.foldl (fun m p => max m (d p)) 0 with hvmax
    have hminle : vmin ≤ 0 := foldl_min_le d ns 0
    have hmaxge : 0 ≤ vmax := foldl_max_ge d ns 0
    by_cases hdeg : vmin = 0 ∨ vmax = 0
    · rw [if_pos hdeg.symm, if_pos hdeg]
    · have hdeg2 : ¬(vmax = 0 ∨ vmin = 0) := fun hc => hdeg hc.symm
      rw [if_neg hdeg2, if_neg hdeg]
      obtain ⟨hne1, hne2⟩ := not_or.mp hdeg
      have hminlt : vmin < 0 := lt_of_le_of_ne hminle hne1
      have hmaxgt : 0 < vmax := lt_of_le_of_ne hmaxge (Ne.symm hne2)
      rw [if_pos hminlt, if_pos hmaxgt]
      rcases foldl_min_attained d ns 0 with he | ⟨q, hq, hdq⟩
      · exact absurd he (ne_of_lt hminlt)
      · rcases foldl_max_attained d ns 0 with he2 | ⟨q2, hq2, hdq2⟩
        · exact absurd he2 (ne_of_gt hmaxgt)
        · have hs1 : (ns.find? fun r => decide (d r = vmin)).isSome := by
            rw [List.find?_isSome]
            exact ⟨q, hq, by simp [hdq, hvmin]⟩
          have hs2 : (ns.find? fun r => decide (d r = vmax)).isSome := by
            rw [List.find?_isSome]
            exact ⟨q2, hq2, by simp [hdq2, hvmax]⟩
          obtain ⟨o1, ho1⟩ := Option.isSome_iff_exists.mp hs1
          obtain ⟨o2, ho2⟩ := Option.isSome_iff_exists.mp hs2
          rw [ho1, ho2]
          dsimp only [Option.getD_some]
          rw [hasManySiblings_eq_spec, hasManySiblings_eq_spec,
            hasManySiblings_eq_spec, hasManySiblings_eq_spec]

/-- The specialized NRGBA line decode produces exactly the canonical
color of the direct At(x,y).RGBA() conversion. -/
lemma linePixel_eq_colorAt (m : NRGBAImage) (x y : ℤ) :
    m.linePixel x y = m.colorAt x y := by
  unfold NRGBAImage.linePixel NRGBAImage.colorAt nrgbaRGBA
  dsimp only
  by_cases h : byteAt m.pix (m.pixOffset x y + 3) = 255
  · rw [if_pos h, h]
    congr 1
    · rw [Nat.mul_div_cancel _ (by norm_num)]
    · rw [Nat.mul_div_cancel _ (by norm_num)]
    · rw [Nat.mul_div_cancel _ (by norm_num)]
  · rw [if_neg h]

/-- Entry i of a materialized line is the canonical color of column
min.x + i. -/
lemma readLine_getD (img : GoImage) (y : ℤ) (i : ℕ) (hi : i < img.bounds.dxNat) :
    (img.readLine y).getD i zeroRgba = img.colorAt (img.bounds.min.x + i) y := by
  cases img with
  | nrgba m =>
    show ((List.range m.rect.dxNat).map fun j : ℕ =>
      m.linePixel (m.rect.min.x + (j : ℤ)) y).getD i zeroRgba = _
    rw [List.getD_eq_getElem _ _ (by simpa using hi)]
    rw [List.getElem_map, List.getElem_range]
    exact linePixel_eq_colorAt m _ _
  | generic g =>
    show ((List.range g.rect.dxNat).map fun j : ℕ =>
      g.pixel (g.rect.min.x + (j : ℤ)) y).getD i zeroRgba = _
    rw [List.getD_eq_getElem _ _ (by simpa using hi)]
    rw [List.getElem_map, List.getElem_range]
    rfl

/-- Each materialized line has the logical width. -/
lemma readLine_length (img : GoImage) (y : ℤ) :
    (img.readLine y).length = img.bounds.dxNat := by
  cases img with
  | nrgba m =>
    show ((List.range m.rect.dxNat).map fun j : ℕ =>
      m.linePixel (m.rect.min.x + (j : ℤ)) y).length = _
    rw [List.length_map, List.length_range]
    rfl
  | generic g =>
    show ((List.range g.rect.dxNat).map fun j : ℕ =>
      g.pixel (g.rect.min.x + (j : ℤ)) y).length = _
    rw [List.length_map, List.length_range]
    rfl

/-- The first Next() on a nonempty image fills the five window slots. -/
lemma readerNext_first (img : GoImage)
    (h : ¬ img.bounds.min.y = img.bounds.max.y) :
    readerNext img (newImageLineReader img img.bounds.min.y) =
      some (readerSpec img 1) := by
  unfold readerNext newImageLineReader readerSpec
  dsimp only
  rw [if_neg h]
  rw [if_pos (show (Option.isNone (none : Option (List Rgba))) = true from rfl)]
  simp only [Option.some.injEq]
  congr 1
  all_goals try (push_cast; ring)
  all_goals funext j
  all_goals exact congrArg (windowLine img) (by push_cast; ring)

/-- A Next() from the window state at row k (1 ≤ k < height) slides the
window by one row. -/
lemma readerNext_shift (img : GoImage) (n : ℕ) (hpos : 1 ≤ n)
    (hn : (n : ℤ) < img.bounds.max.y - img.bounds.min.y) :
    readerNext img (readerSpec img n) = some (readerSpec img (n + 1)) := by
  unfold readerNext readerSpec
  dsimp only
  rw [if_neg (show ¬ img.bounds.min.y + (n : ℤ) = img.bounds.max.y by omega)]
  have hl2 : windowLine img (img.bounds.min.y + (n : ℤ) - 1 + (((2 : Fin 5) : ℤ) - 2)) =
      some (img.readLine (img.bounds.min.y + (n : ℤ) - 1)) := by
    unfold windowLine
    rw [if_pos (by constructor <;> omega)]
    congr 1
    have : ((2 : Fin 5) : ℤ) = 2 := rfl
    rw [this]
    ring
  rw [if_neg (show ¬ (windowLine img (img.bounds.min.y + (n : ℤ) - 1 +
      (((2 : Fin 5) : ℤ) - 2))).isNone = true by rw [hl2]; simp)]
  simp only [Option.some.injEq]
  congr 1
  · push_cast
    ring
  · funext j
    by_cases hj : (j : ℕ) + 1 < 5
    · rw [dif_pos hj]
      congr 1
      have hco : ((⟨(j : ℕ) + 1, hj⟩ : Fin 5) : ℤ) = (j : ℤ) + 1 := by
        simp
      rw [hco]
      push_cast
      ring
    · rw [dif_neg hj]
      congr 1
      have hj4 : (j : ℤ) = 4 := by
        have : (j : ℕ) = 4 := by omega
        exact_mod_cast this
      rw [hj4]
      push_cast
      ring

/-- After its k-th successful Next() (1 ≤ k ≤ height, started at the top
row), the reader is exactly the window state readerSpec. -/
lemma nextN_eq (img : GoImage) :
    ∀ k : ℕ, 1 ≤ k → (k : ℤ) ≤ img.bounds.max.y - img.bounds.min.y →
      nextN img k = some (readerSpec img k) := by
  intro k
  induction k with
  | zero => intro h; omega
  | succ n ih =>
    intro _ hk
    show (nextN img n).bind (fun s => readerNext img s) = _
    cases Nat.eq_zero_or_pos n with
    | inl h0 =>
      subst h0
      rw [nextN, Option.some_bind]
      exact readerNext_first img (by push_cast at hk; omega)
    | inr hpos =>
      rw [ih hpos (by push_cast at hk ⊢; omega), Option.some_bind]
      rw [readerNext_shift img n hpos (by push_cast at hk; omega)]

/-- A failed Next() is terminal: every later call also fails. -/
lemma nextN_none_succ (img : GoImage) (k : ℕ) (h : nextN img k = none) :
    nextN img (k + 1) = none := by
  show (nextN img k).bind (fun s => readerNext img s) = none
  rw [h]
  rfl

/-- Next() succeeds exactly while the cursor has not passed the last
row. -/
lemma nextN_isSome_iff (img : GoImage) (hc : img.bounds.min.y ≤ img.bounds.max.y) :
    ∀ k : ℕ, (nextN img k).isSome = true ↔
      (k : ℤ) ≤ img.bounds.max.y - img.bounds.min.y := by
  have htop : ∀ j : ℕ, (j : ℤ) > img.bounds.max.y - img.bounds.min.y →
      nextN img j = none := by
    intro j
    induction j with
    | zero => intro h; omega
    | succ n ih =>
      intro hj
      by_cases hn : (n : ℤ) > img.bounds.max.y - img.bounds.min.y
      · exact nextN_none_succ img n (ih hn)
      · push_neg at hn
        have hn2 : (n : ℤ) = img.bounds.max.y - img.bounds.min.y := by
          push_cast at hj; omega
        show (nextN img n).bind (fun s => readerNext img s) = none
        cases Nat.eq_zero_or_pos n with
        | inl h0 =>
          subst h0
          rw [nextN, Option.some_bind]
          unfold readerNext newImageLineReader
          dsimp only
          rw [if_pos (by omega)]
        | inr hpos =>
          rw [nextN_eq img n hpos (le_of_eq hn2), Option.some_bind]
          unfold readerNext readerSpec
          dsimp only
          rw [if_pos (by omega)]
  intro k
  constructor
  · intro hs
    by_contra hgt
    push_neg at hgt
    rw [htop k hgt] at hs
    simp at hs
  · intro hle
    cases Nat.eq_zero_or_pos k with
    | inl h0 =>
      subst h0
      rfl
    | inr hpos =>
      rw [nextN_eq img k hpos hle]
      rfl

/-- At(x, y) on the window state: for an x-offset inside the line and a
row y inside the image and within two rows of the current row, the entry
is the canonical color of column min.x + x. -/
lemma readerSpec_At (img : GoImage) (k : ℕ) (i : ℕ) (y : ℤ)
    (hi : i < img.bounds.dxNat)
    (hy1 : img.bounds.min.y ≤ y) (hy2 : y < img.bounds.max.y)
    (hw1 : img.bounds.min.y + k - 1 - 2 ≤ y) (hw2 : y ≤ img.bounds.min.y + k - 1 + 2) :
    (readerSpec img k).At i y = img.colorAt (img.bounds.min.x + i) y := by
  unfold LineReaderState.At readerSpec LineReaderState.Yr
  dsimp only
  rw [dif_pos (show 0 ≤ y - (img.bounds.min.y + (k : ℤ) - 1) + 2 ∧
      y - (img.bounds.min.y + (k : ℤ) - 1) + 2 < 5 by omega)]
  have harg : img.bounds.min.y + (k : ℤ) - 1 +
      (((⟨(y - (img.bounds.min.y + (k : ℤ) - 1) + 2).toNat, by omega⟩ : Fin 5) : ℤ) - 2) =
      y := by
    have h0 : ((⟨(y - (img.bounds.min.y + (k : ℤ) - 1) + 2).toNat, by omega⟩ : Fin 5) : ℤ) =
        y - (img.bounds.min.y + (k : ℤ) - 1) + 2 := by
      show (((y - (img.bounds.min.y + (k : ℤ) - 1) + 2).toNat : ℕ) : ℤ) = _
      rw [Int.toNat_of_nonneg (by omega)]
    rw [h0]
    ring
  rw [harg]
  rw [show windowLine img y = some (img.readLine y) from by
    unfold windowLine; rw [if_pos ⟨hy1, hy2⟩]]
  dsimp only
  rw [if_pos (show (0 : ℤ) ≤ (i : ℤ) from by omega)]
  rw [show ((i : ℤ)).toNat = i from by omega]
  exact readLine_getD img y i hi

/-- C8 (amended): started at the image's top row, the k-th Next()
succeeds exactly while the cursor has not passed the last row; and after
k successful calls, At(x, y) — for an x-offset inside the line width and
a row y inside the image within two rows of the current row — returns
the canonical color of column Bounds().Min.X + x of row y, which
coincides with direct conversion at (x, y) exactly when Min.X = 0. -/
theorem reader_next_at_characterization (img : GoImage)
    (hc : img.bounds.min.y ≤ img.bounds.max.y) :
    (∀ k : ℕ, (nextN img k).isSome = true ↔
      (k : ℤ) ≤ img.bounds.max.y - img.bounds.min.y) ∧
    (∀ k : ℕ, ∀ s : LineReaderState, 1 ≤ k → nextN img k = some s →
      ∀ i : ℕ, i < img.bounds.dxNat →
      ∀ y : ℤ, img.bounds.min.y ≤ y → y < img.bounds.max.y →
        img.bounds.min.y + k - 1 - 2 ≤ y → y ≤ img.bounds.min.y + k - 1 + 2 →
        s.At i y = img.colorAt (img.bounds.min.x + i) y) := by
  refine ⟨nextN_isSome_iff img hc, ?_⟩
  intro k s hk hs i hi y hy1 hy2 hw1 hw2
  have hkle : (k : ℤ) ≤ img.bounds.max.y - img.bounds.min.y :=
    (nextN_isSome_iff img hc k).mp (by rw [hs]; rfl)
  rw [nextN_eq img k hk hkle] at hs
  obtain rfl : readerSpec img k = s := Option.some.inj hs
  exact readerSpec_At img k i y hi hy1 hy2 hw1 hw2

/-- C8 witness: the characterization applied to a concrete 2x2 image
with origin (0,0), one Next() call, and the pixel (0,0). -/
theorem reader_next_at_characterization_witness :
    (nextN (.generic ⟨⟨⟨0, 0⟩, ⟨2, 2⟩⟩, fun x y => ⟨x.toNat + 10 * y.toNat, 0, 0, 65535⟩⟩)
      1).isSome = true ∧
    ((nextN (.generic ⟨⟨⟨0, 0⟩, ⟨2, 2⟩⟩, fun x y => ⟨x.toNat + 10 * y.toNat, 0, 0, 65535⟩⟩)
        1).map fun s => s.At 0 0) =
      some ((GoImage.generic ⟨⟨⟨0, 0⟩, ⟨2, 2⟩⟩,
        fun x y => ⟨x.toNat + 10 * y.toNat, 0, 0, 65535⟩⟩).colorAt 0 0) := by
  have h := reader_next_at_characterization
    (.generic ⟨⟨⟨0, 0⟩, ⟨2, 2⟩⟩, fun x y => ⟨x.toNat + 10 * y.toNat, 0, 0, 65535⟩⟩)
    (by decide)
  refine ⟨(h.1 1).mpr (by decide), ?_⟩
  cases hn : nextN (.generic ⟨⟨⟨0, 0⟩, ⟨2, 2⟩⟩,
      fun x y => ⟨x.toNat + 10 * y.toNat, 0, 0, 65535⟩⟩) 1 with
  | none =>
    have := (h.1 1).mpr (by decide)
    rw [hn] at this
    simp at this
  | some s =>
    have hAt := h.2 1 s le_rfl hn 0 (by decide) 0 (by decide) (by decide)
      (by decide) (by decide)
    exact congrArg some hAt

/-- C8 counterexample: an image whose bounds start at Min.X = 1.  The
coordinate (1, 0) is inside the bounds and within the window, yet after
one Next() the reader's At(1, 0) returns the canonical color of column
2, not the direct conversion of (1, 0): the source indexes the line by
the absolute x with no Min.X correction. -/
theorem reader_At_wrong_with_offset :
    ((nextN (.generic ⟨⟨⟨1, 0⟩, ⟨3, 1⟩⟩, fun x _ => ⟨x.toNat, 0, 0, 65535⟩⟩) 1).map
      fun s => s.At 1 0) = some ⟨2, 0, 0, 65535⟩ ∧
    (GoImage.generic ⟨⟨⟨1, 0⟩, ⟨3, 1⟩⟩, fun x _ => ⟨x.toNat, 0, 0, 65535⟩⟩).colorAt 1 0 =
      ⟨1, 0, 0, 65535⟩ := by
  constructor
  · rfl
  · rfl

/-- The diff counter advances by one exactly when the pixel is flagged:
above the cutoff and not suppressed as anti-aliasing. -/
lemma processPixel_fst (mo : MatchOptions) (md aa : ℚ) (va vb : PixelSource)
    (minX y : ℤ) (i : ℕ) (ca cb : Rgba) (acc : ℕ × List ℕ) :
    (processPixel mo md aa va vb minX y i ca cb acc).1 =
      acc.1 + (if pixelFlagged mo.includeAA md va vb (minX + i) y ca cb = true
        then 1 else 0) := by
  unfold processPixel pixelFlagged
  dsimp only
  by_cases h1 : md < |colorDelta ca cb false|
  · rw [if_pos h1]
    by_cases h2 : (!mo.includeAA && (isAntiAliased va vb (minX + (i : ℤ)) y ||
        isAntiAliased vb va (minX + (i : ℤ)) y)) = true
    · rw [if_pos h2, h2]
      simp [h1]
    · rw [if_neg h2]
      rw [Bool.not_eq_true] at h2
      rw [h2]
      simp [h1]
  · rw [if_neg h1]
    have hd : decide (md < |colorDelta ca cb false|) = false := by
      simpa using h1
    rw [hd]
    simp

/-- The diff count of one row is the number of flagged pixel indices. -/
lemma processRow_fst (mo : MatchOptions) (md aa : ℚ) (va vb : PixelSource)
    (minX y : ℤ) (aLine bLine : List Rgba) (outLine : List ℕ) :
    (processRow mo md aa va vb minX y aLine bLine outLine).1 =
      (List.range aLine.length).countP fun i : ℕ =>
        pixelFlagged mo.includeAA md va vb (minX + (i : ℤ)) y (aLine.getD i zeroRgba)
          (bLine.getD i zeroRgba) := by
  unfold processRow
  suffices h : ∀ (L : List ℕ) (n : ℕ) (w : List ℕ),
      (L.foldl (fun acc i => processPixel mo md aa va vb minX y i (aLine.getD i zeroRgba)
        (bLine.getD i zeroRgba) acc) (n, w)).1 =
      n + L.countP (fun i : ℕ => pixelFlagged mo.includeAA md va vb (minX + (i : ℤ)) y
        (aLine.getD i zeroRgba) (bLine.getD i zeroRgba)) by
    rw [h]
    omega
  intro L
  induction L with
  | nil =>
    intro n w
    simp
  | cons j t ih =>
    intro n w
    rw [List.foldl_cons, List.countP_cons]
    rw [show processPixel mo md aa va vb minX y j (aLine.getD j zeroRgba)
        (bLine.getD j zeroRgba) (n, w) =
      ((processPixel mo md aa va vb minX y j (aLine.getD j zeroRgba)
          (bLine.getD j zeroRgba) (n, w)).1,
        (processPixel mo md aa va vb minX y j (aLine.getD j zeroRgba)
          (bLine.getD j zeroRgba) (n, w)).2) from rfl]
    rw [ih]
    rw [processPixel_fst]
    by_cases hf : pixelFlagged mo.includeAA md va vb (minX + j) y (aLine.getD j zeroRgba)
        (bLine.getD j zeroRgba) = true
    · rw [hf]
      simp only [if_pos rfl]
      omega
    · rw [Bool.not_eq_true] at hf
      rw [hf]
      simp only []
      omega

/-- Counting with a weaker predicate counts at least as much. -/
lemma countP_le_countP {α : Type} (p q : α → Bool) (l : List α)
    (h : ∀ x ∈ l, p x = true → q x = true) : l.countP p ≤ l.countP q := by
  induction l with
  | nil => simp
  | cons a t ih =>
    rw [List.countP_cons, List.countP_cons]
    have ht : t.countP p ≤ t.countP q :=
      ih fun x hx => h x (List.mem_cons_of_mem _ hx)
    by_cases hp : p a = true
    · rw [hp, h a (List.mem_cons_self _ _) hp]
      omega
    · rw [Bool.not_eq_true] at hp
      rw [hp]
      rw [show (if (false = true) then 1 else 0) = 0 from by simp]
      have : (if q a = true then 1 else 0) ≤ 1 := by
        split <;> omega
      omega

/-- A pixel flagged at a larger cutoff is flagged at a smaller one: the
anti-aliasing side of the condition does not depend on the cutoff. -/
lemma pixelFlagged_mono (inc : Bool) (md1 md2 : ℚ) (hmd : md1 ≤ md2)
    (va vb : PixelSource) (x y : ℤ) (ca cb : Rgba)
    (h : pixelFlagged inc md2 va vb x y ca cb = true) :
    pixelFlagged inc md1 va vb x y ca cb = true := by
  unfold pixelFlagged at h ⊢
  rw [Bool.and_eq_true] at h ⊢
  refine ⟨?_, h.2⟩
  rw [decide_eq_true_eq] at h ⊢
  exact lt_of_le_of_lt hmd h.1

/-- Raising the cutoff never increases the diff count of the row loop;
the rendering options and the row buffers may differ arbitrarily. -/
lemma mainLoop_fst_mono (a b : GoImage) (mo1 mo2 : MatchOptions)
    (md1 md2 aa1 aa2 : ℚ) (hAA : mo1.includeAA = mo2.includeAA) (hmd : md1 ≤ md2) :
    ∀ (fuel : ℕ) (sa sb : LineReaderState) (y : ℤ) (w1 w2 : List ℕ),
      (mainLoop a b mo2 md2 aa2 fuel sa sb y w2).1 ≤
        (mainLoop a b mo1 md1 aa1 fuel sa sb y w1).1 := by
  intro fuel
  induction fuel with
  | zero =>
    intro sa sb y w1 w2
    exact le_rfl
  | succ f ih =>
    intro sa sb y w1 w2
    rw [mainLoop, mainLoop]
    cases hra : readerNext a sa with
    | none =>
      dsimp only
      exact le_rfl
    | some sa2 =>
      cases hrb : readerNext b sb with
      | none =>
        dsimp only
        exact le_rfl
      | some sb2 =>
        dsimp only
        refine Nat.add_le_add ?_ (ih sa2 sb2 (y + 1) _ _)
        rw [processRow_fst, processRow_fst]
        refine countP_le_countP _ _ _ fun x _ hx => ?_
        rw [← hAA] at hx
        exact pixelFlagged_mono mo1.includeAA md1 md2 hmd _ _ _ _ _ _ hx

/-- C4: for a fixed pair of images and fixed other options, raising the
threshold never increases the diff count returned by MatchPixel. -/
theorem matchPixel_threshold_monotone (a b : GoImage) (mo : MatchOptions)
    (t1 t2 : ℚ) (h0 : 0 ≤ t1) (h12 : t1 ≤ t2) (_h21 : t2 ≤ 1) :
    (matchPixel a b { mo with threshold := t2 }).count ≤
      (matchPixel a b { mo with threshold := t1 }).count := by
  unfold matchPixel
  by_cases hr : a.bounds.rEq b.bounds = false
  · rw [if_pos hr, if_pos hr]
  · rw [if_neg hr, if_neg hr]
    by_cases hid : isIdentical a b
    · rw [if_pos hid, if_pos hid]
    · rw [if_neg hid, if_neg hid]
      dsimp only
      exact mainLoop_fst_mono a b { mo with threshold := t1 } { mo with threshold := t2 }
        (maxDeltaOf t1) (maxDeltaOf t2)
        ({ mo with threshold := t1 }.alpha / 255) ({ mo with threshold := t2 }.alpha / 255)
        rfl (by unfold maxDeltaOf; nlinarith) _ _ _ _ _ _

/-- C4 witness: the monotonicity applied to a concrete pair and concrete
thresholds 0 ≤ 1/2 ≤ 1. -/
theorem matchPixel_threshold_monotone_witness :
    (matchPixel (.generic ⟨⟨⟨0, 0⟩, ⟨1, 1⟩⟩, fun _ _ => ⟨5, 5, 5, 65535⟩⟩)
        (.generic ⟨⟨⟨0, 0⟩, ⟨1, 1⟩⟩, fun _ _ => ⟨5, 5, 5, 65535⟩⟩)
        { defaultOptions with threshold := 1/2 }).count ≤
      (matchPixel (.generic ⟨⟨⟨0, 0⟩, ⟨1, 1⟩⟩, fun _ _ => ⟨5, 5, 5, 65535⟩⟩)
        (.generic ⟨⟨⟨0, 0⟩, ⟨1, 1⟩⟩, fun _ _ => ⟨5, 5, 5, 65535⟩⟩)
        { defaultOptions with threshold := 0 }).count :=
  matchPixel_threshold_monotone
    (.generic ⟨⟨⟨0, 0⟩, ⟨1, 1⟩⟩, fun _ _ => ⟨5, 5, 5, 65535⟩⟩)
    (.generic ⟨⟨⟨0, 0⟩, ⟨1, 1⟩⟩, fun _ _ => ⟨5, 5, 5, 65535⟩⟩)
    defaultOptions 0 (1/2) (by norm_num) (by norm_num) (by norm_num)

end Pixelmatch
